import Mathlib

/-!
Verification development for the diffusion sampling scheduler engine
specified by this repository's design document.  The repository's source
is a documentation notebook exercising the engine (scheduler hot-swapping,
config round-trips, seeded generators); the engine itself (NoiseSchedule,
TimestepSequencer, StepAlgorithm variants, SchedulerSession) is not part of
the checked-in sources, so every definition below is modelled from the
specification's words and checked against the spec's testable properties.
-/

namespace SchedulerEngine

/-! ## Data model: configuration -/

/-- Modelled from the spec: §6 recognized `beta_schedule` enum
`linear|scaled_linear|squared_cosine`. -/
inductive BetaScheduleKind
  | linear
  | scaledLinear
  | squaredCosine
deriving DecidableEq

/-- Modelled from the spec: §6 recognized `prediction_type` enum
`epsilon|sample|v_prediction`. -/
inductive PredictionType
  | epsilon
  | sample
  | vPrediction
deriving DecidableEq

/-- Modelled from the spec: §3/§6 SchedulerConfig recognized fields.
`beta_start`/`beta_end` are serialized decimal floats; they are modelled
exactly as rationals. -/
structure CoreConfig where
  numTrainTimesteps : ℕ
  betaStart : ℚ
  betaEnd : ℚ
  betaSchedule : BetaScheduleKind
  clipSample : Bool
  predictionType : PredictionType
  solverOrder : ℕ
  stepsOffset : ℕ
deriving DecidableEq

/-- Modelled from the spec: §6 configuration values in the flat key-value
configuration dictionary (ints, floats-as-rationals, bools, strings, null). -/
inductive ConfigValue
  | intV (n : ℤ)
  | ratV (q : ℚ)
  | boolV (b : Bool)
  | strV (s : String)
  | nullV
deriving DecidableEq

/-- Modelled from the spec: §3 SchedulerConfig, an immutable value object of
the recognized fields together with the unrecognized keys, which §6 requires
to be "preserved opaquely for round-trip serialization but ignored by
computation". -/
structure SchedulerConfig where
  core : CoreConfig
  extra : List (String × ConfigValue)
deriving DecidableEq

/-- Modelled from the spec: §7 error taxonomy.  The sequencer's
`requested_steps > total_trained_steps` failure is "stated as ValueError in
the TimestepSequencer contract and classified as StateError in the error
taxonomy"; it is the `stateError` constructor here. -/
inductive SchedErr
  | configError
  | stateError
  | shapeError
  | numericError
deriving DecidableEq

/-- The sequencer contract (§4.2) names its failure ValueError; the taxonomy
(§7) classifies the same failure as StateError. -/
def valueError : SchedErr := SchedErr.stateError

/-- Modelled from the spec: §4.1 ConfigError conditions (`beta_start ≥
beta_end` or `num_train_timesteps ≤ 0`), together with the §3 invariant's
presupposition that the beta range stays inside (0,1) (alphas strictly in
(0,1]) and §6's "solver_order (positive int)". -/
def validCore (c : CoreConfig) : Prop :=
  0 < c.numTrainTimesteps ∧ 0 < c.betaStart ∧ c.betaStart < c.betaEnd ∧
    c.betaEnd < 1 ∧ 0 < c.solverOrder

instance (c : CoreConfig) : Decidable (validCore c) := by
  unfold validCore; infer_instance

/-! ## TimestepSequencer -/

/-- Modelled from the spec: §4.2 / §9 — deterministic floor-based even
striding: stride `⌊T/k⌋`, values `i·⌊T/k⌋ + offset` for `i = k-1 … 0`,
emitted in strictly decreasing (reverse-diffusion) order. -/
def sequenceList (k T offset : ℕ) : List ℕ :=
  ((List.range k).map (fun i => i * (T / k) + offset)).reverse

/-- Modelled from the spec: §4.2 `sequence(requested_steps,
total_trained_steps, offset)`, failing (synchronously, as a returned error)
when `requested_steps > total_trained_steps`. -/
def sequence (k T offset : ℕ) : Except SchedErr (List ℕ) :=
  if T < k then Except.error valueError else Except.ok (sequenceList k T offset)

theorem sequenceList_length (k T offset : ℕ) :
    (sequenceList k T offset).length = k := by
  simp [sequenceList]

theorem sequenceList_pairwise (k T offset : ℕ) (hk : 1 ≤ k) (hkT : k ≤ T) :
    (sequenceList k T offset).Pairwise (· > ·) := by
  have hr : 1 ≤ T / k := (Nat.one_le_div_iff (by omega : 0 < k)).2 hkT
  unfold sequenceList
  rw [List.pairwise_reverse]
  refine List.Pairwise.map _ ?_ (List.pairwise_lt_range k)
  intro a b hab
  have := Nat.mul_le_mul_right (T / k) (Nat.succ_le_of_lt hab)
  have hlt : a * (T / k) < b * (T / k) := by
    calc a * (T / k) < a * (T / k) + (T / k) := by omega
    _ = (a + 1) * (T / k) := by ring
    _ ≤ b * (T / k) := this
  omega

theorem sequenceList_mem_lt (k T offset : ℕ) (hk : 1 ≤ k)
    (hbound : offset + (k - 1) * (T / k) < T) :
    ∀ x ∈ sequenceList k T offset, x < T := by
  intro x hx
  unfold sequenceList at hx
  rw [List.mem_reverse, List.mem_map] at hx
  obtain ⟨i, hi, rfl⟩ := hx
  rw [List.mem_range] at hi
  have : i * (T / k) ≤ (k - 1) * (T / k) :=
    Nat.mul_le_mul_right _ (by omega)
  omega

theorem sequence_bound_zero_offset (k T : ℕ) (hk : 1 ≤ k) (hkT : k ≤ T) :
    0 + (k - 1) * (T / k) < T := by
  have hr : 1 ≤ T / k := (Nat.one_le_div_iff (by omega : 0 < k)).2 hkT
  have hm : T / k * k ≤ T := Nat.div_mul_le_self T k
  have : (k - 1) * (T / k) = k * (T / k) - (T / k) := by
    rw [Nat.sub_one_mul]
  have hkr : k * (T / k) ≤ T := by
    calc k * (T / k) = T / k * k := by ring
    _ ≤ T := hm
  have hrk : T / k ≤ k * (T / k) := Nat.le_mul_of_pos_left _ (by omega)
  omega

theorem sequence_bound_one_offset (k T : ℕ) (hk : 1 ≤ k) (hkT : k < T) :
    1 + (k - 1) * (T / k) < T := by
  have hr : 1 ≤ T / k := (Nat.one_le_div_iff (by omega : 0 < k)).2 hkT.le
  have hm : T / k * k ≤ T := Nat.div_mul_le_self T k
  have heq : (k - 1) * (T / k) = k * (T / k) - (T / k) := by
    rw [Nat.sub_one_mul]
  have hkr : k * (T / k) ≤ T := by
    calc k * (T / k) = T / k * k := by ring
    _ ≤ T := hm
  have hrk : T / k ≤ k * (T / k) := Nat.le_mul_of_pos_left _ (by omega)
  rcases Nat.lt_or_ge (T / k) 2 with h2 | h2
  · have : T / k = 1 := by omega
    rw [heq, this]
    omega
  · omega

/-- Claim C1.  For every requested step count `k` and trained step count `T`
with `1 ≤ k ≤ T` and offset 0, `sequence k T 0` succeeds with a list of
exactly `k` distinct, strictly decreasing values, each within `[0, T)`. -/
theorem timestep_sequence_zero_offset_wellformed (k T : ℕ)
    (hk : 1 ≤ k) (hkT : k ≤ T) :
    ∃ l, sequence k T 0 = Except.ok l ∧ l.length = k ∧
      l.Pairwise (· > ·) ∧ l.Nodup ∧ ∀ x ∈ l, x < T := by
  refine ⟨sequenceList k T 0, ?_, sequenceList_length k T 0,
    sequenceList_pairwise k T 0 hk hkT, ?_, ?_⟩
  · unfold sequence
    rw [if_neg (by omega)]
  · exact (sequenceList_pairwise k T 0 hk hkT).imp (fun h => Nat.ne_of_gt h)
  · exact sequenceList_mem_lt k T 0 hk (sequence_bound_zero_offset k T hk hkT)

/-- Witness for C1 at `k = 3`, `T = 10`. -/
theorem timestep_sequence_zero_offset_wellformed_witness :
    ∃ l, sequence 3 10 0 = Except.ok l ∧ l.length = 3 ∧
      l.Pairwise (· > ·) ∧ l.Nodup ∧ ∀ x ∈ l, x < 10 :=
  timestep_sequence_zero_offset_wellformed 3 10 (by decide) (by decide)

/-- Claim C9.  `sequence` fails — synchronously, by returning the error at
the offending call — exactly when `requested_steps > total_trained_steps`;
the error is the ValueError of the sequencer contract, classified as
StateError in the taxonomy. -/
theorem sequence_error_iff_requested_exceeds_trained (k T offset : ℕ) :
    sequence k T offset = Except.error valueError ↔ T < k := by
  unfold sequence
  by_cases h : T < k
  · simp [h]
  · simp [h]

/-- Witness for C9 at `k = 5`, `T = 3`. -/
theorem sequence_error_iff_requested_exceeds_trained_witness :
    sequence 5 3 0 = Except.error valueError :=
  (sequence_error_iff_requested_exceeds_trained 5 3 0).2 (by decide)

/-- Counterexample to claim C10 as stated: with `steps_offset = 1`,
`k = T = 2` is accepted (no error is raised, since `k ≤ T`), yet the top
emitted value is `2`, which is not a valid index into a noise schedule of
length `T = 2`. -/
theorem sequence_one_offset_out_of_range :
    sequence 2 2 1 = Except.ok [2, 1] ∧ ¬ (∀ x ∈ [2, 1], x < 2) := by
  constructor
  · rfl
  · decide

/-- Claim C10, amended: with the shipped default `steps_offset = 1` the
sequence is well-formed — exactly `k` strictly decreasing values, each a
valid index in `[0, T)` — provided `k < T` (when `k = T` the offset pushes
the top value to `T`, out of range). -/
theorem timestep_sequence_one_offset_wellformed (k T : ℕ)
    (hk : 1 ≤ k) (hkT : k < T) :
    ∃ l, sequence k T 1 = Except.ok l ∧ l.length = k ∧
      l.Pairwise (· > ·) ∧ l.Nodup ∧ ∀ x ∈ l, x < T := by
  refine ⟨sequenceList k T 1, ?_, sequenceList_length k T 1,
    sequenceList_pairwise k T 1 hk hkT.le, ?_, ?_⟩
  · unfold sequence
    rw [if_neg (by omega)]
  · exact (sequenceList_pairwise k T 1 hk hkT.le).imp (fun h => Nat.ne_of_gt h)
  · exact sequenceList_mem_lt k T 1 hk (sequence_bound_one_offset k T hk hkT)

/-- Witness for the amended C10 at `k = 4`, `T = 10`. -/
theorem timestep_sequence_one_offset_wellformed_witness :
    ∃ l, sequence 4 10 1 = Except.ok l ∧ l.length = 4 ∧
      l.Pairwise (· > ·) ∧ l.Nodup ∧ ∀ x ∈ l, x < 10 :=
  timestep_sequence_one_offset_wellformed 4 10 (by decide) (by decide)

/-! ## NoiseSchedule -/

/-- Modelled from the spec: the squared-cosine signal profile underlying the
`squared_cosine` interpolation kind — `cos((t/T)·(π/2))²`, decreasing from 1
at `t = 0` to 0 at `t = T`. -/
noncomputable def sqCosBar (cfg : CoreConfig) (t : ℕ) : ℝ :=
  Real.cos ((t / cfg.numTrainTimesteps : ℝ) * (Real.pi / 2)) ^ 2

/-- Modelled from the spec: §4.1 — the per-timestep beta array for the three
recognized interpolation kinds.  `linear` interpolates `beta_start → beta_end`
evenly; `scaled_linear` interpolates evenly in square-root space and squares;
`squared_cosine` takes the per-step decay of the squared-cosine profile,
capped below 1. -/
noncomputable def betaAt (cfg : CoreConfig) (t : ℕ) : ℝ :=
  match cfg.betaSchedule with
  | BetaScheduleKind.linear =>
      (cfg.betaStart : ℝ) +
        ((cfg.betaEnd : ℝ) - (cfg.betaStart : ℝ)) * t /
          ((cfg.numTrainTimesteps : ℝ) - 1)
  | BetaScheduleKind.scaledLinear =>
      (Real.sqrt (cfg.betaStart : ℝ) +
        (Real.sqrt (cfg.betaEnd : ℝ) - Real.sqrt (cfg.betaStart : ℝ)) * t /
          ((cfg.numTrainTimesteps : ℝ) - 1)) ^ 2
  | BetaScheduleKind.squaredCosine =>
      min (1 - sqCosBar cfg (t + 1) / sqCosBar cfg t) (999 / 1000)

/-- Modelled from the spec: glossary — `alpha = 1 - beta` per timestep. -/
noncomputable def alphaAt (cfg : CoreConfig) (t : ℕ) : ℝ :=
  1 - betaAt cfg t

/-- Modelled from the spec: §3 — `alpha_cumulative(t)`, the running product of
the alphas up to and including timestep `t`. -/
noncomputable def alphaCumulative (cfg : CoreConfig) (t : ℕ) : ℝ :=
  ∏ i ∈ Finset.range (t + 1), alphaAt cfg i

/-- The even-striding coefficient `t/(T-1)` lies in `[0,1]` for `t < T`. -/
theorem interpCoeff_mem (T t : ℕ) (ht : t < T) :
    0 ≤ (t : ℝ) / ((T : ℝ) - 1) ∧ (t : ℝ) / ((T : ℝ) - 1) ≤ 1 := by
  rcases Nat.lt_or_ge T 2 with h2 | h2
  · have hT : t = 0 := by omega
    subst hT
    norm_num
  · have hd : (0 : ℝ) < (T : ℝ) - 1 := by
      have : (2 : ℝ) ≤ (T : ℝ) := by exact_mod_cast h2
      linarith
    constructor
    · exact div_nonneg (Nat.cast_nonneg t) hd.le
    · rw [div_le_one hd]
      have : (t : ℝ) ≤ (T : ℝ) - 1 := by
        have : (t + 1 : ℝ) ≤ (T : ℝ) := by exact_mod_cast ht
        linarith
      exact this

theorem sqCosBar_angle_mem (cfg : CoreConfig) (hT : 0 < cfg.numTrainTimesteps)
    (u : ℕ) (hu : u ≤ cfg.numTrainTimesteps) :
    0 ≤ ((u : ℝ) / (cfg.numTrainTimesteps : ℝ)) * (Real.pi / 2) ∧
      ((u : ℝ) / (cfg.numTrainTimesteps : ℝ)) * (Real.pi / 2) ≤ Real.pi / 2 := by
  have hTR : (0 : ℝ) < (cfg.numTrainTimesteps : ℝ) := by exact_mod_cast hT
  have hpi : (0 : ℝ) < Real.pi := Real.pi_pos
  have h1 : 0 ≤ (u : ℝ) / (cfg.numTrainTimesteps : ℝ) :=
    div_nonneg (Nat.cast_nonneg u) hTR.le
  have h2 : (u : ℝ) / (cfg.numTrainTimesteps : ℝ) ≤ 1 := by
    rw [div_le_one hTR]; exact_mod_cast hu
  constructor
  · positivity
  · calc ((u : ℝ) / (cfg.numTrainTimesteps : ℝ)) * (Real.pi / 2)
        ≤ 1 * (Real.pi / 2) := mul_le_mul_of_nonneg_right h2 (by linarith)
    _ = Real.pi / 2 := one_mul _

theorem sqCosBar_pos (cfg : CoreConfig) (hT : 0 < cfg.numTrainTimesteps)
    (t : ℕ) (ht : t < cfg.numTrainTimesteps) : 0 < sqCosBar cfg t := by
  have hTR : (0 : ℝ) < (cfg.numTrainTimesteps : ℝ) := by exact_mod_cast hT
  have hpi : (0 : ℝ) < Real.pi := Real.pi_pos
  have hlt1 : (t : ℝ) / (cfg.numTrainTimesteps : ℝ) < 1 := by
    rw [div_lt_one hTR]; exact_mod_cast ht
  have h0 := (sqCosBar_angle_mem cfg hT t ht.le).1
  have hcos : 0 < Real.cos (((t : ℝ) / (cfg.numTrainTimesteps : ℝ)) * (Real.pi / 2)) := by
    apply Real.cos_pos_of_mem_Ioo
    constructor
    · linarith
    · calc ((t : ℝ) / (cfg.numTrainTimesteps : ℝ)) * (Real.pi / 2)
          < 1 * (Real.pi / 2) := by
            apply mul_lt_mul_of_pos_right hlt1 (by linarith)
      _ = Real.pi / 2 := one_mul _
  unfold sqCosBar
  positivity

theorem sqCosBar_strict_decr (cfg : CoreConfig) (hT : 0 < cfg.numTrainTimesteps)
    (t : ℕ) (ht : t + 1 ≤ cfg.numTrainTimesteps) :
    sqCosBar cfg (t + 1) < sqCosBar cfg t := by
  have hTR : (0 : ℝ) < (cfg.numTrainTimesteps : ℝ) := by exact_mod_cast hT
  have hpi : (0 : ℝ) < Real.pi := Real.pi_pos
  have hm0 := sqCosBar_angle_mem cfg hT t (by omega)
  have hm1 := sqCosBar_angle_mem cfg hT (t + 1) ht
  have hstep : ((t : ℝ) / (cfg.numTrainTimesteps : ℝ)) * (Real.pi / 2) <
      (((t + 1 : ℕ) : ℝ) / (cfg.numTrainTimesteps : ℝ)) * (Real.pi / 2) := by
    have hdiff : (((t + 1 : ℕ) : ℝ) / (cfg.numTrainTimesteps : ℝ)) * (Real.pi / 2) -
        ((t : ℝ) / (cfg.numTrainTimesteps : ℝ)) * (Real.pi / 2) =
        (1 / (cfg.numTrainTimesteps : ℝ)) * (Real.pi / 2) := by
      push_cast
      field_simp
      ring
    have hpos : 0 < (1 / (cfg.numTrainTimesteps : ℝ)) * (Real.pi / 2) := by positivity
    linarith
  have hcoslt : Real.cos ((((t + 1 : ℕ) : ℝ) / (cfg.numTrainTimesteps : ℝ)) * (Real.pi / 2)) <
      Real.cos (((t : ℝ) / (cfg.numTrainTimesteps : ℝ)) * (Real.pi / 2)) := by
    apply Real.strictAntiOn_cos
    · exact Set.mem_Icc.2 ⟨hm0.1, by linarith⟩
    · exact Set.mem_Icc.2 ⟨hm1.1, by linarith⟩
    · exact hstep
  have hcos1nn : 0 ≤ Real.cos ((((t + 1 : ℕ) : ℝ) / (cfg.numTrainTimesteps : ℝ)) * (Real.pi / 2)) := by
    apply Real.cos_nonneg_of_mem_Icc
    exact Set.mem_Icc.2 ⟨by linarith [hm1.1], hm1.2⟩
  unfold sqCosBar
  exact pow_lt_pow_left₀ hcoslt hcos1nn (by omega)

/-- Bounds for an even linear interpolation between the beta endpoints. -/
theorem linearInterp_mem (b0 b1 s : ℝ) (h0 : 0 < b0) (h01 : b0 < b1)
    (hs0 : 0 ≤ s) (hs1 : s ≤ 1) :
    0 < b0 + (b1 - b0) * s ∧ b0 + (b1 - b0) * s ≤ b1 := by
  constructor <;> nlinarith

/-- Bounds for the square of an even interpolation in square-root space. -/
theorem scaledInterp_mem (b0 b1 s : ℝ) (h0 : 0 < b0) (h01 : b0 < b1)
    (hs0 : 0 ≤ s) (hs1 : s ≤ 1) :
    0 < (Real.sqrt b0 + (Real.sqrt b1 - Real.sqrt b0) * s) ^ 2 ∧
      (Real.sqrt b0 + (Real.sqrt b1 - Real.sqrt b0) * s) ^ 2 ≤ b1 := by
  have hsq0 : (0 : ℝ) < Real.sqrt b0 := Real.sqrt_pos.2 h0
  have hsqle : Real.sqrt b0 ≤ Real.sqrt b1 := Real.sqrt_le_sqrt h01.le
  have hul : Real.sqrt b0 ≤ Real.sqrt b0 + (Real.sqrt b1 - Real.sqrt b0) * s := by
    have : 0 ≤ (Real.sqrt b1 - Real.sqrt b0) * s := mul_nonneg (by linarith) hs0
    linarith
  have huu : Real.sqrt b0 + (Real.sqrt b1 - Real.sqrt b0) * s ≤ Real.sqrt b1 := by
    have : (Real.sqrt b1 - Real.sqrt b0) * s ≤ Real.sqrt b1 - Real.sqrt b0 :=
      mul_le_of_le_one_right (by linarith) hs1
    linarith
  have hu0 : 0 < Real.sqrt b0 + (Real.sqrt b1 - Real.sqrt b0) * s :=
    lt_of_lt_of_le hsq0 hul
  constructor
  · exact pow_pos hu0 2
  · calc (Real.sqrt b0 + (Real.sqrt b1 - Real.sqrt b0) * s) ^ 2
        ≤ Real.sqrt b1 ^ 2 := pow_le_pow_left₀ hu0.le huu 2
    _ = b1 := Real.sq_sqrt (by linarith)

theorem betaAt_mem (cfg : CoreConfig) (h : validCore cfg)
    (t : ℕ) (ht : t < cfg.numTrainTimesteps) :
    0 < betaAt cfg t ∧ betaAt cfg t < 1 := by
  obtain ⟨hT, hb0, hb01, hb1, _⟩ := h
  have hb0R : (0 : ℝ) < (cfg.betaStart : ℝ) := by exact_mod_cast hb0
  have hb01R : (cfg.betaStart : ℝ) < (cfg.betaEnd : ℝ) := by exact_mod_cast hb01
  have hb1R : (cfg.betaEnd : ℝ) < 1 := by exact_mod_cast hb1
  obtain ⟨hs0, hs1⟩ := interpCoeff_mem cfg.numTrainTimesteps t ht
  cases hbs : cfg.betaSchedule with
  | linear =>
      have hβ : betaAt cfg t = (cfg.betaStart : ℝ) +
          ((cfg.betaEnd : ℝ) - (cfg.betaStart : ℝ)) *
            ((t : ℝ) / ((cfg.numTrainTimesteps : ℝ) - 1)) := by
        simp only [betaAt, hbs]
        ring
      rw [hβ]
      obtain ⟨hl, hu⟩ := linearInterp_mem (cfg.betaStart : ℝ) (cfg.betaEnd : ℝ)
        ((t : ℝ) / ((cfg.numTrainTimesteps : ℝ) - 1)) hb0R hb01R hs0 hs1
      exact ⟨hl, lt_of_le_of_lt hu hb1R⟩
  | scaledLinear =>
      have hβ : betaAt cfg t = (Real.sqrt (cfg.betaStart : ℝ) +
          (Real.sqrt (cfg.betaEnd : ℝ) - Real.sqrt (cfg.betaStart : ℝ)) *
            ((t : ℝ) / ((cfg.numTrainTimesteps : ℝ) - 1))) ^ 2 := by
        simp only [betaAt, hbs]
        ring
      rw [hβ]
      obtain ⟨hl, hu⟩ := scaledInterp_mem (cfg.betaStart : ℝ) (cfg.betaEnd : ℝ)
        ((t : ℝ) / ((cfg.numTrainTimesteps : ℝ) - 1)) hb0R hb01R hs0 hs1
      exact ⟨hl, lt_of_le_of_lt hu hb1R⟩
  | squaredCosine =>
      have hβ : betaAt cfg t =
          min (1 - sqCosBar cfg (t + 1) / sqCosBar cfg t) (999 / 1000 : ℝ) := by
        simp only [betaAt, hbs]
      rw [hβ]
      have hpos0 : 0 < sqCosBar cfg t := sqCosBar_pos cfg hT t ht
      have hdecr : sqCosBar cfg (t + 1) < sqCosBar cfg t :=
        sqCosBar_strict_decr cfg hT t (by omega)
      have hq1 : sqCosBar cfg (t + 1) / sqCosBar cfg t < 1 :=
        (div_lt_one hpos0).2 hdecr
      constructor
      · apply lt_min
        · linarith
        · norm_num
      · calc min (1 - sqCosBar cfg (t + 1) / sqCosBar cfg t) (999 / 1000 : ℝ)
            ≤ (999 / 1000 : ℝ) := min_le_right _ _
        _ < 1 := by norm_num

/-- For a valid configuration, every alpha within the trained range lies
strictly in `(0, 1)`. -/
theorem alphaAt_mem (cfg : CoreConfig) (h : validCore cfg)
    (t : ℕ) (ht : t < cfg.numTrainTimesteps) :
    0 < alphaAt cfg t ∧ alphaAt cfg t < 1 := by
  obtain ⟨hb0, hb1⟩ := betaAt_mem cfg h t ht
  unfold alphaAt
  constructor <;> linarith

theorem alphaCumulative_pos (cfg : CoreConfig) (h : validCore cfg)
    (t : ℕ) (ht : t < cfg.numTrainTimesteps) :
    0 < alphaCumulative cfg t := by
  unfold alphaCumulative
  apply Finset.prod_pos
  intro i hi
  rw [Finset.mem_range] at hi
  exact (alphaAt_mem cfg h i (by omega)).1

theorem alphaCumulative_succ (cfg : CoreConfig) (t : ℕ) :
    alphaCumulative cfg (t + 1) = alphaCumulative cfg t * alphaAt cfg (t + 1) := by
  unfold alphaCumulative
  rw [Finset.prod_range_succ]

theorem alphaCumulative_antitone (cfg : CoreConfig) (h : validCore cfg)
    (s t : ℕ) (hst : s ≤ t) (ht : t < cfg.numTrainTimesteps) :
    alphaCumulative cfg t ≤ alphaCumulative cfg s := by
  induction t with
  | zero =>
      have : s = 0 := by omega
      subst this
      exact le_refl _
  | succ n ih =>
      rcases Nat.lt_or_ge s (n + 1) with hlt | hge
      · have hn : alphaCumulative cfg n ≤ alphaCumulative cfg s :=
          ih (by omega) (by omega)
        have hpos : 0 < alphaCumulative cfg n :=
          alphaCumulative_pos cfg h n (by omega)
        have halpha := alphaAt_mem cfg h (n + 1) ht
        calc alphaCumulative cfg (n + 1)
            = alphaCumulative cfg n * alphaAt cfg (n + 1) :=
              alphaCumulative_succ cfg n
        _ ≤ alphaCumulative cfg n * 1 := by
              apply mul_le_mul_of_nonneg_left halpha.2.le hpos.le
        _ = alphaCumulative cfg n := mul_one _
        _ ≤ alphaCumulative cfg s := hn
      · have : s = n + 1 := by omega
        subst this
        exact le_refl _

/-- Claim C2.  For every configuration with a recognized `beta_schedule` kind
(the three constructors of `BetaScheduleKind`) that passes construction
validation, every alpha of the computed noise schedule lies strictly in
`(0, 1]` and `alpha_cumulative` is monotonically non-increasing in the
timestep. -/
theorem noise_schedule_invariant (cfg : CoreConfig) (h : validCore cfg) :
    (∀ t, t < cfg.numTrainTimesteps →
        0 < alphaAt cfg t ∧ alphaAt cfg t ≤ 1) ∧
    (∀ s t, s ≤ t → t < cfg.numTrainTimesteps →
        alphaCumulative cfg t ≤ alphaCumulative cfg s) := by
  constructor
  · intro t ht
    obtain ⟨h1, h2⟩ := alphaAt_mem cfg h t ht
    exact ⟨h1, h2.le⟩
  · intro s t hst ht
    exact alphaCumulative_antitone cfg h s t hst ht

/-- Witness for C2 at a concrete valid squared-cosine configuration. -/
theorem noise_schedule_invariant_witness :
    let cfg : CoreConfig := ⟨10, 1/10, 1/5, BetaScheduleKind.squaredCosine,
      false, PredictionType.epsilon, 1, 0⟩
    (∀ t, t < cfg.numTrainTimesteps →
        0 < alphaAt cfg t ∧ alphaAt cfg t ≤ 1) ∧
    (∀ s t, s ≤ t → t < cfg.numTrainTimesteps →
        alphaCumulative cfg t ≤ alphaCumulative cfg s) :=
  noise_schedule_invariant _ (by norm_num [validCore])

/-! ## Samples, random sources, and the model-function boundary -/

/-- Modelled from the spec: §3 Sample, "a tensor-like numeric array (opaque
payload …, only scalar-weighted linear combinations)"; its shape is its
length. -/
abbrev Sample := List ℝ

/-- Scalar scaling of a sample. -/
noncomputable def smul (c : ℝ) (s : Sample) : Sample := s.map (fun a => c * a)

/-- Pointwise sum of two samples. -/
noncomputable def addS (a b : Sample) : Sample := List.zipWith (· + ·) a b

/-- Modelled from the spec: §6 — an explicit, externally supplied random
source: a pure stream of noise values indexed by (call index, coordinate). -/
def RandomSource := ℕ → ℕ → ℝ

/-- A linear-congruential word used to derive a deterministic noise stream
from a seed (the generator is an external collaborator; any pure seeded
stream models it). -/
def lcgVal (seed call coord : ℕ) : ℕ :=
  (1664525 * (seed + 2654435761 * call + 40503 * coord) + 1013904223) % 4294967296

/-- Modelled from the spec: §6 "explicit, externally supplied seeded
generator handle" — the noise stream derived from a seed. -/
noncomputable def mkRandomSource (seed : ℕ) : RandomSource :=
  fun call coord => (lcgVal seed call coord : ℝ) / 4294967296

/-- The noise sample drawn at one step: one value per coordinate. -/
def noiseSample (rng : RandomSource) (call n : ℕ) : Sample :=
  (List.range n).map (fun j => rng call j)

/-- The constant model function returning a zero prediction of the input's
shape at every call (§8 end-to-end scenario). -/
def zeroModel : ℕ → Sample → Sample := fun _ s => s.map (fun _ => 0)

/-! ## StepAlgorithm variants -/

/-- Modelled from the spec: §4.3 — the closed set of scheduling variants. -/
inductive Variant
  | ddpm
  | ddim
  | pndm
  | lms
  | euler
  | eulerAncestral
  | dpmSolverMultistep
deriving DecidableEq

/-- The §4.3 table's deterministic variants. -/
def deterministicVariant : Variant → Bool
  | Variant.ddim | Variant.euler | Variant.pndm | Variant.lms
  | Variant.dpmSolverMultistep => true
  | _ => false

/-- The §4.3 table's stochastic variants. -/
def stochasticVariant : Variant → Bool
  | Variant.ddpm | Variant.eulerAncestral => true
  | _ => false

/-- The cumulative alpha at the previously visited (smaller) timestep:
`alpha_cumulative(t - stride)` when that is still in the trained range,
otherwise the supplied terminal value. -/
noncomputable def prevAcp (cfg : CoreConfig) (finalA : ℝ) (stride t : ℕ) : ℝ :=
  if stride ≤ t then alphaCumulative cfg (t - stride) else finalA

/-- Modelled from the spec: §4.3 design rationale — convert the model's
prediction to a predicted `x0` according to `prediction_type`. -/
noncomputable def predictedX0 (cfg : CoreConfig) (t : ℕ) (x ε : Sample) : Sample :=
  match cfg.predictionType with
  | PredictionType.epsilon =>
      smul (1 / Real.sqrt (alphaCumulative cfg t))
        (addS x (smul (-(Real.sqrt (1 - alphaCumulative cfg t))) ε))
  | PredictionType.sample => ε
  | PredictionType.vPrediction =>
      addS (smul (Real.sqrt (alphaCumulative cfg t)) x)
        (smul (-(Real.sqrt (1 - alphaCumulative cfg t))) ε)

/-- Modelled from the spec: §4.3 — `clip_sample`, when enabled, clamps the
predicted `x0` to `[-1, 1]` before reuse. -/
noncomputable def clampSample (cfg : CoreConfig) (s : Sample) : Sample :=
  if cfg.clipSample then s.map (fun a => max (-1) (min 1 a)) else s

/-- The shared deterministic "predict x0, take a weighted step towards the
previous timestep" transfer (§4.3 design rationale), anchored below the last
visited timestep at `alpha_cumulative(0)` (§8 end-to-end scenario). -/
noncomputable def transferStep (cfg : CoreConfig) (stride t : ℕ)
    (x εc : Sample) : Sample :=
  addS (smul (Real.sqrt (prevAcp cfg (alphaCumulative cfg 0) stride t))
      (clampSample cfg (predictedX0 cfg t x εc)))
    (smul (Real.sqrt (1 - prevAcp cfg (alphaCumulative cfg 0) stride t)) εc)

/-- Modelled from the spec: §4.3 DDIM — "deterministic reverse step using
predicted x0". -/
noncomputable def ddimStep (cfg : CoreConfig) (stride t : ℕ)
    (x ε : Sample) : Sample :=
  transferStep cfg stride t x ε

/-- Modelled from the spec: §4.3 DDPM — "posterior-mean + scaled noise
injection" (epsilon parameterization); the variance vanishes at the last
step, where the previous cumulative alpha is taken as 1. -/
noncomputable def ddpmStep (cfg : CoreConfig) (stride t : ℕ)
    (x ε noise : Sample) : Sample :=
  addS (smul (1 / Real.sqrt (alphaAt cfg t))
      (addS x (smul (-(betaAt cfg t / Real.sqrt (1 - alphaCumulative cfg t))) ε)))
    (smul (Real.sqrt (betaAt cfg t * (1 - prevAcp cfg 1 stride t) /
        (1 - alphaCumulative cfg t))) noise)

/-- The sigma (noise magnitude) parameterization of the schedule (§4.1
`sigma(t)`). -/
noncomputable def sigmaAt (cfg : CoreConfig) (t : ℕ) : ℝ :=
  Real.sqrt ((1 - alphaCumulative cfg t) / alphaCumulative cfg t)

/-- Sigma at the previously visited timestep; 0 below the trained range. -/
noncomputable def sigmaNext (cfg : CoreConfig) (stride t : ℕ) : ℝ :=
  if stride ≤ t then sigmaAt cfg (t - stride) else 0

/-- Modelled from the spec: §4.3 Euler — "Euler step in sigma-parameterized
ODE"; the derivative of the sigma-space ODE at an epsilon prediction is the
prediction itself. -/
noncomputable def eulerStep (cfg : CoreConfig) (stride t : ℕ)
    (x ε : Sample) : Sample :=
  addS x (smul (sigmaNext cfg stride t - sigmaAt cfg t) ε)

/-- Modelled from the spec: §4.3 Euler-Ancestral — "Euler step + injected
noise scaled by ancestral sigma split". -/
noncomputable def eaStep (cfg : CoreConfig) (stride t : ℕ)
    (x ε noise : Sample) : Sample :=
  addS (addS x (smul (Real.sqrt ((sigmaNext cfg stride t) ^ 2 -
      (sigmaNext cfg stride t) ^ 2 * ((sigmaAt cfg t) ^ 2 -
        (sigmaNext cfg stride t) ^ 2) / (sigmaAt cfg t) ^ 2) -
      sigmaAt cfg t) ε))
    (smul (Real.sqrt ((sigmaNext cfg stride t) ^ 2 * ((sigmaAt cfg t) ^ 2 -
      (sigmaNext cfg stride t) ^ 2) / (sigmaAt cfg t) ^ 2)) noise)

/-- Modelled from the spec: §4.3 — the Adams-Bashforth-style linear multistep
combination of the current and up to three retained predictions, at the
order the available history supports. -/
noncomputable def abCombine (hist : List Sample) (ε : Sample) : Sample :=
  match hist with
  | [] => ε
  | [e1] => addS (smul (3 / 2) ε) (smul (-(1 / 2)) e1)
  | [e1, e2] =>
      addS (addS (smul (23 / 12) ε) (smul (-(16 / 12)) e1)) (smul (5 / 12) e2)
  | e1 :: e2 :: e3 :: _ =>
      addS (addS (smul (55 / 24) ε) (smul (-(59 / 24)) e1))
        (addS (smul (37 / 24) e2) (smul (-(9 / 24)) e3))

/-- Modelled from the spec: §4.3 PNDM — "linear multistep combination of
recent derivatives" fed through the shared transfer; with the shipped
configuration's `skip_prk_steps = true` only the plms phase arises. -/
noncomputable def pndmStep (cfg : CoreConfig) (stride t : ℕ)
    (x ε : Sample) (hist : List Sample) : Sample :=
  transferStep cfg stride t x (abCombine hist ε)

/-- Modelled from the spec: §4.3 LMS — "Adams-Bashforth-style weighted sum"
of the last `solver_order` derivatives in sigma space. -/
noncomputable def lmsStep (cfg : CoreConfig) (stride t : ℕ)
    (x ε : Sample) (hist : List Sample) : Sample :=
  addS x (smul (sigmaNext cfg stride t - sigmaAt cfg t)
    (abCombine (hist.take (cfg.solverOrder - 1)) ε))

/-- Modelled from the spec: §4.3 edge cases — the effective order of a
multistep update at step `idx` is capped by the insufficient history of the
warm-up steps: `min solver_order (idx + 1)`. -/
def dpmEffectiveOrder (solverOrder idx : ℕ) : ℕ := min solverOrder (idx + 1)

/-- Half-log signal-to-noise parameter of the exponential integrator. -/
noncomputable def dpmLambda (acp : ℝ) : ℝ :=
  Real.log (Real.sqrt acp / Real.sqrt (1 - acp))

/-- Modelled from the spec: §4.3 DPM-Solver-Multistep — "exponential-
integrator multistep update exploiting semi-linear ODE structure" with the
last 1–2 retained predictions; steps whose effective order exceeds the
available history fall back explicitly to the lower-order update. -/
noncomputable def dpmStep (cfg : CoreConfig) (stride idx t : ℕ)
    (x ε : Sample) (hist : List Sample) : Sample :=
  let ap := prevAcp cfg 1 stride t
  let eh := Real.exp (-(dpmLambda ap - dpmLambda (alphaCumulative cfg t)))
  let base := addS (smul (Real.sqrt (1 - ap) / Real.sqrt (1 - alphaCumulative cfg t)) x)
    (smul (-(Real.sqrt ap * (eh - 1))) (predictedX0 cfg t x ε))
  match dpmEffectiveOrder cfg.solverOrder idx, hist with
  | 0, _ => base
  | 1, _ => base
  | 2, [] => base
  | 2, e1 :: _ =>
      addS base (smul (-(Real.sqrt ap * (eh - 1) / 2))
        (addS (predictedX0 cfg t x ε) (smul (-1) (predictedX0 cfg t x e1))))
  | _ + 3, [] => base
  | _ + 3, [e1] =>
      addS base (smul (-(Real.sqrt ap * (eh - 1) / 2))
        (addS (predictedX0 cfg t x ε) (smul (-1) (predictedX0 cfg t x e1))))
  | _ + 3, e1 :: e2 :: _ =>
      addS (addS base (smul (-(Real.sqrt ap * (eh - 1) / 2))
          (addS (predictedX0 cfg t x ε) (smul (-1) (predictedX0 cfg t x e1)))))
        (smul (-(Real.sqrt ap * (eh - 1) / 6))
          (addS (addS (predictedX0 cfg t x ε)
              (smul (-2) (predictedX0 cfg t x e1)))
            (predictedX0 cfg t x e2)))

/-- How many past predictions each variant retains (§4.3 table). -/
def histCap (cfg : CoreConfig) : Variant → ℕ
  | Variant.pndm => 3
  | Variant.lms => cfg.solverOrder
  | Variant.dpmSolverMultistep => cfg.solverOrder - 1
  | _ => 0

/-- Push the newest prediction into the ring buffer of retained predictions
(§3 SchedulerState). -/
def updateHistory (cfg : CoreConfig) (v : Variant) (ε : Sample)
    (hist : List Sample) : List Sample :=
  (ε :: hist).take (histCap cfg v)

/-- Dispatch of the polymorphic step interface over the variant tag (§9
design note: a closed set of tagged variants behind one step interface). -/
noncomputable def stepFn (cfg : CoreConfig) (stride idx t : ℕ) (v : Variant)
    (x ε noise : Sample) (hist : List Sample) : Sample :=
  match v with
  | Variant.ddpm => ddpmStep cfg stride t x ε noise
  | Variant.ddim => ddimStep cfg stride t x ε
  | Variant.pndm => pndmStep cfg stride t x ε hist
  | Variant.lms => lmsStep cfg stride t x ε hist
  | Variant.euler => eulerStep cfg stride t x ε
  | Variant.eulerAncestral => eaStep cfg stride t x ε noise
  | Variant.dpmSolverMultistep => dpmStep cfg stride idx t x ε hist

/-! ## SchedulerSession -/

/-- The observable outcome of a run: the final sample, the sample after each
step, and the timesteps at which the model function was invoked, in call
order. -/
structure RunResult where
  final : Sample
  trace : List Sample
  calls : List ℕ

/-- Modelled from the spec: §4.4 — iterate the timesteps in order; at each
one call `model_fn(sample, timestep)`, then the step algorithm; thread the
per-run state (step index, retained predictions) explicitly. -/
noncomputable def runSteps (v : Variant) (cfg : CoreConfig) (stride : ℕ)
    (model : ℕ → Sample → Sample) (rng : RandomSource) :
    List ℕ → ℕ → Sample → List Sample → RunResult
  | [], _, x, _ => ⟨x, [], []⟩
  | t :: ts, idx, x, hist =>
      let ε := model t x
      let x1 := stepFn cfg stride idx t v x ε (noiseSample rng idx x.length) hist
      let rest := runSteps v cfg stride model rng ts (idx + 1) x1
        (updateHistory cfg v ε hist)
      ⟨rest.final, x1 :: rest.trace, t :: rest.calls⟩

/-- Modelled from the spec: §4.4 `run(model_fn, initial_sample,
requested_steps, random_source?)` — drive the TimestepSequencer once, then
step through the emitted timesteps. -/
noncomputable def run (v : Variant) (cfg : SchedulerConfig)
    (model : ℕ → Sample → Sample) (k : ℕ) (init : Sample)
    (rng : RandomSource) : Except SchedErr RunResult :=
  match sequence k cfg.core.numTrainTimesteps cfg.core.stepsOffset with
  | Except.error e => Except.error e
  | Except.ok ts =>
      Except.ok (runSteps v cfg.core (cfg.core.numTrainTimesteps / k)
        model rng ts 0 init [])

/-! ## Shape preservation -/

theorem length_smul (c : ℝ) (s : Sample) : (smul c s).length = s.length := by
  simp [smul]

theorem length_addS (a b : Sample) :
    (addS a b).length = min a.length b.length := by
  simp [addS]

theorem length_noiseSample (rng : RandomSource) (call n : ℕ) :
    (noiseSample rng call n).length = n := by
  simp [noiseSample]

theorem length_zeroModel (t : ℕ) (s : Sample) :
    (zeroModel t s).length = s.length := by
  simp [zeroModel]

theorem length_clampSample (cfg : CoreConfig) (s : Sample) :
    (clampSample cfg s).length = s.length := by
  unfold clampSample
  split <;> simp

theorem length_predictedX0 (cfg : CoreConfig) (t : ℕ) (x ε : Sample)
    (hε : ε.length = x.length) :
    (predictedX0 cfg t x ε).length = x.length := by
  unfold predictedX0
  cases cfg.predictionType <;> simp [length_smul, length_addS, hε]

theorem length_transferStep (cfg : CoreConfig) (stride t : ℕ) (x εc : Sample)
    (hε : εc.length = x.length) :
    (transferStep cfg stride t x εc).length = x.length := by
  unfold transferStep
  simp [length_smul, length_addS, length_clampSample,
    length_predictedX0 cfg t x εc hε, hε]

theorem length_abCombine (hist : List Sample) (ε : Sample) (n : ℕ)
    (hε : ε.length = n) (hh : ∀ e ∈ hist, e.length = n) :
    (abCombine hist ε).length = n := by
  match hist with
  | [] => simpa [abCombine] using hε
  | [e1] =>
      have h1 : e1.length = n := hh e1 (by simp)
      simp [abCombine, length_addS, length_smul, hε, h1]
  | [e1, e2] =>
      have h1 : e1.length = n := hh e1 (by simp)
      have h2 : e2.length = n := hh e2 (by simp)
      simp [abCombine, length_addS, length_smul, hε, h1, h2]
  | e1 :: e2 :: e3 :: rest =>
      have h1 : e1.length = n := hh e1 (by simp)
      have h2 : e2.length = n := hh e2 (by simp)
      have h3 : e3.length = n := hh e3 (by simp)
      simp [abCombine, length_addS, length_smul, hε, h1, h2, h3]

theorem length_stepFn (cfg : CoreConfig) (stride idx t : ℕ) (v : Variant)
    (x ε noise : Sample) (hist : List Sample)
    (hε : ε.length = x.length) (hn : noise.length = x.length)
    (hh : ∀ e ∈ hist, e.length = x.length) :
    (stepFn cfg stride idx t v x ε noise hist).length = x.length := by
  cases v with
  | ddpm =>
      simp [stepFn, ddpmStep, length_addS, length_smul, hε, hn]
  | ddim =>
      simpa [stepFn, ddimStep] using length_transferStep cfg stride t x ε hε
  | pndm =>
      have hc : (abCombine hist ε).length = x.length :=
        length_abCombine hist ε x.length hε hh
      simpa [stepFn, pndmStep] using length_transferStep cfg stride t x _ hc
  | lms =>
      have hc : (abCombine (hist.take (cfg.solverOrder - 1)) ε).length = x.length :=
        length_abCombine _ ε x.length hε
          (fun e he => hh e (List.mem_of_mem_take he))
      simp [stepFn, lmsStep, length_addS, length_smul, hc]
  | euler =>
      simp [stepFn, eulerStep, length_addS, length_smul, hε]
  | eulerAncestral =>
      simp [stepFn, eaStep, length_addS, length_smul, hε, hn]
  | dpmSolverMultistep =>
      have hx0 : ∀ e : Sample, e.length = x.length →
          (predictedX0 cfg t x e).length = x.length := fun e he =>
        length_predictedX0 cfg t x e he
      simp only [stepFn, dpmStep]
      split
      · simp [length_addS, length_smul, hx0 ε hε, hε]
      · simp [length_addS, length_smul, hx0 ε hε, hε]
      · simp [length_addS, length_smul, hx0 ε hε, hε]
      · have h1 := hh _ (List.mem_cons_self _ _)
        simp [length_addS, length_smul, hx0 ε hε, hx0 _ h1, hε]
      · simp [length_addS, length_smul, hx0 ε hε, hε]
      · have h1 := hh _ (List.mem_cons_self _ _)
        simp [length_addS, length_smul, hx0 ε hε, hx0 _ h1, hε]
      · have h1 := hh _ (List.mem_cons_self _ _)
        have h2 := hh _ (List.mem_cons_of_mem _ (List.mem_cons_self _ _))
        simp [length_addS, length_smul, hx0 ε hε, hx0 _ h1, hx0 _ h2, hε]

theorem runSteps_spec (v : Variant) (cfg : CoreConfig) (stride : ℕ)
    (model : ℕ → Sample → Sample) (rng : RandomSource)
    (hm : ∀ t s, (model t s).length = s.length) :
    ∀ (ts : List ℕ) (idx : ℕ) (x : Sample) (hist : List Sample),
      (∀ e ∈ hist, e.length = x.length) →
      (runSteps v cfg stride model rng ts idx x hist).calls = ts ∧
      (runSteps v cfg stride model rng ts idx x hist).final.length = x.length ∧
      (∀ s ∈ (runSteps v cfg stride model rng ts idx x hist).trace,
        s.length = x.length) := by
  intro ts
  induction ts with
  | nil =>
      intro idx x hist _
      refine ⟨rfl, rfl, ?_⟩
      intro s hs
      simp [runSteps] at hs
  | cons t ts ih =>
      intro idx x hist hh
      have hε : (model t x).length = x.length := hm t x
      have hx1 : (stepFn cfg stride idx t v x (model t x)
          (noiseSample rng idx x.length) hist).length = x.length :=
        length_stepFn cfg stride idx t v x _ _ hist hε
          (length_noiseSample rng idx x.length) hh
      have hh1 : ∀ e ∈ updateHistory cfg v (model t x) hist,
          e.length = (stepFn cfg stride idx t v x (model t x)
            (noiseSample rng idx x.length) hist).length := by
        intro e he
        rw [hx1]
        unfold updateHistory at he
        have := List.mem_of_mem_take he
        rcases List.mem_cons.1 this with h | h
        · rw [h]; exact hε
        · exact hh e h
      obtain ⟨hc, hf, htr⟩ := ih (idx + 1)
        (stepFn cfg stride idx t v x (model t x)
          (noiseSample rng idx x.length) hist)
        (updateHistory cfg v (model t x) hist) hh1
      refine ⟨?_, ?_, ?_⟩
      · simp only [runSteps]
        rw [hc]
      · simp only [runSteps]
        rw [hf, hx1]
      · intro s hs
        simp only [runSteps, List.mem_cons] at hs
        rcases hs with h | h
        · rw [h]; exact hx1
        · have := htr s h
          rw [this, hx1]

theorem run_ok_spec (v : Variant) (cfg : SchedulerConfig)
    (model : ℕ → Sample → Sample) (k : ℕ) (init : Sample) (rng : RandomSource)
    (hk : k ≤ cfg.core.numTrainTimesteps)
    (hm : ∀ t s, (model t s).length = s.length) :
    ∃ res, run v cfg model k init rng = Except.ok res ∧
      res.calls = sequenceList k cfg.core.numTrainTimesteps cfg.core.stepsOffset ∧
      res.calls.length = k ∧
      res.final.length = init.length ∧
      (∀ s ∈ res.trace, s.length = init.length) := by
  have hseq : sequence k cfg.core.numTrainTimesteps cfg.core.stepsOffset =
      Except.ok (sequenceList k cfg.core.numTrainTimesteps cfg.core.stepsOffset) := by
    unfold sequence
    rw [if_neg (by omega)]
  obtain ⟨hc, hf, htr⟩ := runSteps_spec v cfg.core
    (cfg.core.numTrainTimesteps / k) model rng hm
    (sequenceList k cfg.core.numTrainTimesteps cfg.core.stepsOffset) 0 init []
    (by intro e he; simp at he)
  refine ⟨_, ?_, hc, ?_, hf, htr⟩
  · unfold run
    rw [hseq]
  · rw [hc]
    exact sequenceList_length k cfg.core.numTrainTimesteps cfg.core.stepsOffset

/-- Claim C3.  Whenever `requested_steps ≤ num_train_timesteps` and the model
function preserves shape (§6 model boundary), `run` succeeds, makes exactly
`requested_steps` calls to `model_fn`, visits the timesteps of the sequence
in order with none skipped or reordered, and preserves the sample's shape
across every step. -/
theorem session_run_calls_and_shape (v : Variant) (cfg : SchedulerConfig)
    (model : ℕ → Sample → Sample) (k : ℕ) (init : Sample) (rng : RandomSource)
    (hk : k ≤ cfg.core.numTrainTimesteps)
    (hm : ∀ t s, (model t s).length = s.length) :
    ∃ res, run v cfg model k init rng = Except.ok res ∧
      res.calls = sequenceList k cfg.core.numTrainTimesteps cfg.core.stepsOffset ∧
      res.calls.length = k ∧
      res.final.length = init.length ∧
      (∀ s ∈ res.trace, s.length = init.length) :=
  run_ok_spec v cfg model k init rng hk hm

/-- Witness for C3: the DDIM variant with the zero model at `k = 2`,
`T = 10`. -/
theorem session_run_calls_and_shape_witness :
    ∃ res, run Variant.ddim
        ⟨⟨10, 1/10, 1/5, BetaScheduleKind.linear, false,
          PredictionType.epsilon, 1, 0⟩, []⟩
        zeroModel 2 [1, 2] (mkRandomSource 0) = Except.ok res ∧
      res.calls = sequenceList 2 10 0 ∧
      res.calls.length = 2 ∧
      res.final.length = ([1, 2] : Sample).length ∧
      (∀ s ∈ res.trace, s.length = ([1, 2] : Sample).length) :=
  session_run_calls_and_shape Variant.ddim _ zeroModel 2 [1, 2]
    (mkRandomSource 0) (by norm_num) length_zeroModel

/-! ## Determinism -/

theorem stepFn_noise_irrel (cfg : CoreConfig) (stride idx t : ℕ) (v : Variant)
    (hdet : deterministicVariant v = true) (x ε noise₁ noise₂ : Sample)
    (hist : List Sample) :
    stepFn cfg stride idx t v x ε noise₁ hist =
      stepFn cfg stride idx t v x ε noise₂ hist := by
  cases v <;> simp_all [stepFn, deterministicVariant]

theorem runSteps_rng_irrel (v : Variant) (hdet : deterministicVariant v = true)
    (cfg : CoreConfig) (stride : ℕ) (model : ℕ → Sample → Sample)
    (rng₁ rng₂ : RandomSource) :
    ∀ (ts : List ℕ) (idx : ℕ) (x : Sample) (hist : List Sample),
      runSteps v cfg stride model rng₁ ts idx x hist =
        runSteps v cfg stride model rng₂ ts idx x hist := by
  intro ts
  induction ts with
  | nil => intro idx x hist; rfl
  | cons t ts ih =>
      intro idx x hist
      simp only [runSteps]
      rw [stepFn_noise_irrel cfg stride idx t v hdet x (model t x)
        (noiseSample rng₁ idx x.length) (noiseSample rng₂ idx x.length) hist,
        ih]

/-- Claim C6.  For each deterministic variant (DDIM, Euler, PNDM, LMS,
DPM-Solver-Multistep), two runs with identical model function and identical
configuration produce identical results — final sample, full sample
trajectory and call sequence — regardless of the random source supplied. -/
theorem deterministic_variants_rng_independent (v : Variant)
    (hdet : deterministicVariant v = true) (cfg : SchedulerConfig)
    (model : ℕ → Sample → Sample) (k : ℕ) (init : Sample)
    (rng₁ rng₂ : RandomSource) :
    run v cfg model k init rng₁ = run v cfg model k init rng₂ := by
  unfold run
  cases sequence k cfg.core.numTrainTimesteps cfg.core.stepsOffset with
  | error e => rfl
  | ok ts =>
      simp only
      rw [runSteps_rng_irrel v hdet cfg.core
        (cfg.core.numTrainTimesteps / k) model rng₁ rng₂ ts 0 init []]

/-- Witness for C6: DDIM with two different seeded sources at `k = 2`,
`T = 10`. -/
theorem deterministic_variants_rng_independent_witness :
    run Variant.ddim
        ⟨⟨10, 1/10, 1/5, BetaScheduleKind.linear, false,
          PredictionType.epsilon, 1, 0⟩, []⟩
        zeroModel 2 [1] (mkRandomSource 0) =
      run Variant.ddim
        ⟨⟨10, 1/10, 1/5, BetaScheduleKind.linear, false,
          PredictionType.epsilon, 1, 0⟩, []⟩
        zeroModel 2 [1] (mkRandomSource 1) :=
  deterministic_variants_rng_independent Variant.ddim (by decide) _
    zeroModel 2 [1] (mkRandomSource 0) (mkRandomSource 1)

/-! ## Multistep warm-up -/

/-- Claim C8.  A solver-order-3 multistep algorithm run for fewer than 3
steps is safe: each warm-up step `i < solver_order - 1` explicitly falls back
to the lower effective order `i + 1`; the effective order never exceeds the
available history (`i + 1`), so no out-of-range history access can occur
(`dpmStep` only destructures the retained history and has explicit
lower-order fallbacks); and the run succeeds with a well-formed, finite
output of the input's shape. -/
theorem multistep_warmup_safe :
    (∀ i, i + 1 < 3 → dpmEffectiveOrder 3 i = i + 1) ∧
    (∀ i, dpmEffectiveOrder 3 i ≤ i + 1) ∧
    (∀ k, k < 3 → ∀ (model : ℕ → Sample → Sample) (init : Sample)
      (rng : RandomSource), (∀ t s, (model t s).length = s.length) →
      ∃ res, run Variant.dpmSolverMultistep
          ⟨⟨50, 1/10, 1/5, BetaScheduleKind.linear, false,
            PredictionType.epsilon, 3, 0⟩, []⟩ model k init rng =
          Except.ok res ∧
        res.final.length = init.length ∧
        (∀ s ∈ res.trace, s.length = init.length)) := by
  refine ⟨?_, ?_, ?_⟩
  · intro i hi
    unfold dpmEffectiveOrder
    omega
  · intro i
    unfold dpmEffectiveOrder
    omega
  · intro k hk model init rng hm
    obtain ⟨res, hrun, _, _, hf, htr⟩ := run_ok_spec Variant.dpmSolverMultistep
      ⟨⟨50, 1/10, 1/5, BetaScheduleKind.linear, false,
        PredictionType.epsilon, 3, 0⟩, []⟩ model k init rng (by norm_num; omega) hm
    exact ⟨res, hrun, hf, htr⟩

/-- Witness for C8: warm-up at step index 1 and a 2-step order-3 run with
the zero model. -/
theorem multistep_warmup_safe_witness :
    dpmEffectiveOrder 3 1 = 2 ∧
    ∃ res, run Variant.dpmSolverMultistep
        ⟨⟨50, 1/10, 1/5, BetaScheduleKind.linear, false,
          PredictionType.epsilon, 3, 0⟩, []⟩ zeroModel 2 [1] (mkRandomSource 0) =
        Except.ok res ∧
      res.final.length = ([1] : Sample).length ∧
      (∀ s ∈ res.trace, s.length = ([1] : Sample).length) :=
  ⟨multistep_warmup_safe.1 1 (by decide),
    multistep_warmup_safe.2.2 2 (by decide) zeroModel [1] (mkRandomSource 0)
      length_zeroModel⟩

/-! ## Configuration serialization and cross-variant exchange -/

/-- Modelled from the spec: §6 — the recognized configuration keys. -/
def recognizedKeys : List String :=
  [("num_train_timesteps"), ("beta_start"), ("beta_end"), ("beta_schedule"),
   ("clip_sample"), ("prediction_type"), ("solver_order"), ("steps_offset")]

def encodeBetaSchedule : BetaScheduleKind → String
  | BetaScheduleKind.linear => "linear"
  | BetaScheduleKind.scaledLinear => "scaled_linear"
  | BetaScheduleKind.squaredCosine => "squared_cosine"

def decodeBetaSchedule (s : String) : Option BetaScheduleKind :=
  if s = "linear" then some BetaScheduleKind.linear
  else if s = "scaled_linear" then some BetaScheduleKind.scaledLinear
  else if s = "squared_cosine" then some BetaScheduleKind.squaredCosine
  else none

def encodePredictionType : PredictionType → String
  | PredictionType.epsilon => "epsilon"
  | PredictionType.sample => "sample"
  | PredictionType.vPrediction => "v_prediction"

def decodePredictionType (s : String) : Option PredictionType :=
  if s = "epsilon" then some PredictionType.epsilon
  else if s = "sample" then some PredictionType.sample
  else if s = "v_prediction" then some PredictionType.vPrediction
  else none

/-- Modelled from the spec: §6 configuration boundary — serialize the
recognized fields into the flat key-value form, followed by the opaquely
preserved unrecognized keys. -/
def serializeConfig (cfg : SchedulerConfig) : List (String × ConfigValue) :=
  [(("num_train_timesteps"), ConfigValue.intV cfg.core.numTrainTimesteps),
   (("beta_start"), ConfigValue.ratV cfg.core.betaStart),
   (("beta_end"), ConfigValue.ratV cfg.core.betaEnd),
   (("beta_schedule"), ConfigValue.strV (encodeBetaSchedule cfg.core.betaSchedule)),
   (("clip_sample"), ConfigValue.boolV cfg.core.clipSample),
   (("prediction_type"), ConfigValue.strV (encodePredictionType cfg.core.predictionType)),
   (("solver_order"), ConfigValue.intV cfg.core.solverOrder),
   (("steps_offset"), ConfigValue.intV cfg.core.stepsOffset)] ++ cfg.extra

/-- Modelled from the spec: §4.3/§6 — a constructed scheduler: a variant tag
and its (shared, hot-swappable) configuration. -/
structure Scheduler where
  variant : Variant
  config : SchedulerConfig

/-- Modelled from the spec: §4.1/§7 — construction validates the
configuration and fails with ConfigError otherwise. -/
def construct (v : Variant) (cfg : SchedulerConfig) : Except SchedErr Scheduler :=
  if validCore cfg.core then Except.ok ⟨v, cfg⟩
  else Except.error SchedErr.configError

/-- The `config` property: the serialized configuration of a scheduler. -/
def configOf (s : Scheduler) : List (String × ConfigValue) :=
  serializeConfig s.config

def getNat (kvs : List (String × ConfigValue)) (key : String) : Option ℕ :=
  match List.lookup key kvs with
  | some (ConfigValue.intV n) => if 0 ≤ n then some n.toNat else none
  | _ => none

def getRat (kvs : List (String × ConfigValue)) (key : String) : Option ℚ :=
  match List.lookup key kvs with
  | some (ConfigValue.ratV q) => some q
  | _ => none

def getBool (kvs : List (String × ConfigValue)) (key : String) : Option Bool :=
  match List.lookup key kvs with
  | some (ConfigValue.boolV b) => some b
  | _ => none

def getStr (kvs : List (String × ConfigValue)) (key : String) : Option String :=
  match List.lookup key kvs with
  | some (ConfigValue.strV s) => some s
  | _ => none

/-- Modelled from the spec: §6 — `from_config`: parse the recognized keys of
a serialized configuration, preserve the unrecognized keys opaquely, and
construct the requested variant. -/
def fromConfig (v : Variant) (kvs : List (String × ConfigValue)) :
    Except SchedErr Scheduler :=
  match getNat kvs ("num_train_timesteps"), getRat kvs ("beta_start"),
      getRat kvs ("beta_end"),
      (getStr kvs ("beta_schedule")).bind decodeBetaSchedule,
      getBool kvs ("clip_sample"),
      (getStr kvs ("prediction_type")).bind decodePredictionType,
      getNat kvs ("solver_order"), getNat kvs ("steps_offset") with
  | some T, some b0, some b1, some bs, some cs, some pt, some so, some off =>
      construct v ⟨⟨T, b0, b1, bs, cs, pt, so, off⟩,
        kvs.filter (fun kv => !(recognizedKeys.contains kv.1))⟩
  | _, _, _, _, _, _, _, _ => Except.error SchedErr.configError

theorem decodeBetaSchedule_encode (k : BetaScheduleKind) :
    decodeBetaSchedule (encodeBetaSchedule k) = some k := by
  cases k <;> rfl

theorem decodePredictionType_encode (p : PredictionType) :
    decodePredictionType (encodePredictionType p) = some p := by
  cases p <;> rfl

/-- Claim C5.  For every pair of variants `A`, `B` and every valid
configuration (with its unrecognized keys disjoint from the recognized
ones), constructing `B` from the serialized configuration of a scheduler
constructed as `A` succeeds and loses no information: every shared field
and every opaquely preserved unrecognized key comes back exactly; and the
unrecognized keys are ignored by `B`'s computation. -/
theorem config_roundtrip_across_variants (A B : Variant)
    (cfg : SchedulerConfig) (hval : validCore cfg.core)
    (hext : ∀ kv ∈ cfg.extra, ¬ kv.1 ∈ recognizedKeys) :
    ∃ sA, construct A cfg = Except.ok sA ∧
      fromConfig B (configOf sA) = Except.ok ⟨B, cfg⟩ ∧
      (∀ e₁ e₂ model k init rng,
        run B ⟨cfg.core, e₁⟩ model k init rng =
          run B ⟨cfg.core, e₂⟩ model k init rng) := by
  refine ⟨⟨A, cfg⟩, ?_, ?_, ?_⟩
  · unfold construct
    rw [if_pos hval]
  · have h1 : getNat (configOf ⟨A, cfg⟩) ("num_train_timesteps") =
        some cfg.core.numTrainTimesteps := by
      simp [configOf, serializeConfig, getNat, List.lookup]
    have h2 : getRat (configOf ⟨A, cfg⟩) ("beta_start") =
        some cfg.core.betaStart := by
      simp [configOf, serializeConfig, getRat, List.lookup]
    have h3 : getRat (configOf ⟨A, cfg⟩) ("beta_end") =
        some cfg.core.betaEnd := by
      simp [configOf, serializeConfig, getRat, List.lookup]
    have h4 : (getStr (configOf ⟨A, cfg⟩) ("beta_schedule")).bind
        decodeBetaSchedule = some cfg.core.betaSchedule := by
      simp [configOf, serializeConfig, getStr, List.lookup,
        decodeBetaSchedule_encode]
    have h5 : getBool (configOf ⟨A, cfg⟩) ("clip_sample") =
        some cfg.core.clipSample := by
      simp [configOf, serializeConfig, getBool, List.lookup]
    have h6 : (getStr (configOf ⟨A, cfg⟩) ("prediction_type")).bind
        decodePredictionType = some cfg.core.predictionType := by
      simp [configOf, serializeConfig, getStr, List.lookup,
        decodePredictionType_encode]
    have h7 : getNat (configOf ⟨A, cfg⟩) ("solver_order") =
        some cfg.core.solverOrder := by
      simp [configOf, serializeConfig, getNat, List.lookup]
    have h8 : getNat (configOf ⟨A, cfg⟩) ("steps_offset") =
        some cfg.core.stepsOffset := by
      simp [configOf, serializeConfig, getNat, List.lookup]
    have hfil : (configOf ⟨A, cfg⟩).filter
        (fun kv => !(recognizedKeys.contains kv.1)) = cfg.extra := by
      show (serializeConfig cfg).filter _ = cfg.extra
      unfold serializeConfig
      rw [List.filter_append]
      have hfix : ([(("num_train_timesteps"), ConfigValue.intV cfg.core.numTrainTimesteps),
          (("beta_start"), ConfigValue.ratV cfg.core.betaStart),
          (("beta_end"), ConfigValue.ratV cfg.core.betaEnd),
          (("beta_schedule"), ConfigValue.strV (encodeBetaSchedule cfg.core.betaSchedule)),
          (("clip_sample"), ConfigValue.boolV cfg.core.clipSample),
          (("prediction_type"), ConfigValue.strV (encodePredictionType cfg.core.predictionType)),
          (("solver_order"), ConfigValue.intV cfg.core.solverOrder),
          (("steps_offset"), ConfigValue.intV cfg.core.stepsOffset)]).filter
            (fun kv => !(recognizedKeys.contains kv.1)) = [] := by
        simp [recognizedKeys]
      have hrest : cfg.extra.filter
          (fun kv => !(recognizedKeys.contains kv.1)) = cfg.extra := by
        apply List.filter_eq_self.mpr
        intro kv hkv
        simpa [recognizedKeys] using hext kv hkv
      rw [hfix, hrest]
      rfl
    unfold fromConfig
    rw [h1, h2, h3, h4, h5, h6, h7, h8, hfil]
    show construct B cfg = Except.ok ⟨B, cfg⟩
    unfold construct
    rw [if_pos hval]
  · intro e₁ e₂ model k init rng
    rfl

/-- Witness for C5: the notebook's PNDM configuration (including its
PNDM-specific and private unrecognized keys) round-tripped into DDIM. -/
theorem config_roundtrip_across_variants_witness :
    let cfgW : SchedulerConfig :=
      ⟨⟨1000, 17/20000, 12/1000, BetaScheduleKind.scaledLinear, false,
          PredictionType.epsilon, 1, 1⟩,
        [(("trained_betas"), ConfigValue.nullV),
         (("skip_prk_steps"), ConfigValue.boolV true),
         (("set_alpha_to_one"), ConfigValue.boolV false),
         (("_class_name"), ConfigValue.strV ("PNDMScheduler")),
         (("_diffusers_version"), ConfigValue.strV ("0.8.0.dev0"))]⟩
    ∃ sA, construct Variant.pndm cfgW = Except.ok sA ∧
      fromConfig Variant.ddim (configOf sA) = Except.ok ⟨Variant.ddim, cfgW⟩ ∧
      (∀ e₁ e₂ model k init rng,
        run Variant.ddim ⟨cfgW.core, e₁⟩ model k init rng =
          run Variant.ddim ⟨cfgW.core, e₂⟩ model k init rng) :=
  config_roundtrip_across_variants Variant.pndm Variant.ddim _
    (by norm_num [validCore]) (by simp [recognizedKeys])

/-! ## End-to-end DDIM closed form -/

/-- Modelled from the spec: §8 end-to-end scenario configuration
{num_train_timesteps = 1000, beta_start = 0.00085, beta_end = 0.012,
beta_schedule = scaled_linear}. -/
def notebookCore : CoreConfig :=
  ⟨1000, 17/20000, 12/1000, BetaScheduleKind.scaledLinear, false,
    PredictionType.epsilon, 1, 0⟩

theorem smul_smul_sample (a b : ℝ) (x : Sample) :
    smul a (smul b x) = smul (a * b) x := by
  simp only [smul, List.map_map]
  congr 1
  funext y
  simp [Function.comp]
  ring

theorem smul_replicate_zero (c : ℝ) (n : ℕ) :
    smul c (List.replicate n 0) = List.replicate n 0 := by
  simp [smul]

theorem addS_replicate_zero (y : Sample) :
    ∀ n, y.length = n → addS y (List.replicate n (0:ℝ)) = y := by
  induction y with
  | nil => intro n h; simp [addS]
  | cons a ys ih =>
      intro n h
      cases n with
      | zero => simp at h
      | succ m =>
          simp only [List.replicate, addS, List.zipWith]
          rw [add_zero]
          have := ih m (by simpa using h)
          simp only [addS] at this
          rw [this]

/-- The accumulated deterministic scale factor of a zero-prediction DDIM run
over a list of timesteps. -/
noncomputable def ddimFactor (cfg : CoreConfig) (stride : ℕ) : List ℕ → ℝ
  | [] => 1
  | t :: ts =>
      (Real.sqrt (prevAcp cfg (alphaCumulative cfg 0) stride t) /
        Real.sqrt (alphaCumulative cfg t)) * ddimFactor cfg stride ts

theorem ddimStep_zero (cfg : CoreConfig) (hclip : cfg.clipSample = false)
    (hpred : cfg.predictionType = PredictionType.epsilon) (stride t : ℕ)
    (x : Sample) :
    ddimStep cfg stride t x (zeroModel t x) =
      smul (Real.sqrt (prevAcp cfg (alphaCumulative cfg 0) stride t) /
        Real.sqrt (alphaCumulative cfg t)) x := by
  have hz : zeroModel t x = List.replicate x.length 0 := by
    simp [zeroModel]
  unfold ddimStep transferStep
  rw [hz]
  simp only [clampSample, hclip, Bool.false_eq_true, if_false]
  simp only [predictedX0, hpred]
  rw [smul_replicate_zero, addS_replicate_zero x x.length rfl,
    smul_replicate_zero, smul_smul_sample,
    addS_replicate_zero _ x.length (by rw [length_smul]),
    mul_one_div]

theorem runSteps_ddim_zero (cfg : CoreConfig) (hclip : cfg.clipSample = false)
    (hpred : cfg.predictionType = PredictionType.epsilon) (stride : ℕ)
    (rng : RandomSource) :
    ∀ (ts : List ℕ) (idx : ℕ) (x : Sample) (hist : List Sample),
      (runSteps Variant.ddim cfg stride zeroModel rng ts idx x hist).final =
        smul (ddimFactor cfg stride ts) x := by
  intro ts
  induction ts with
  | nil =>
      intro idx x hist
      show x = smul 1 x
      simp [smul]
  | cons t ts ih =>
      intro idx x hist
      simp only [runSteps]
      rw [ih]
      have hstep : stepFn cfg stride idx t Variant.ddim x (zeroModel t x)
          (noiseSample rng idx x.length) hist =
          smul (Real.sqrt (prevAcp cfg (alphaCumulative cfg 0) stride t) /
            Real.sqrt (alphaCumulative cfg t)) x := by
        simp only [stepFn]
        exact ddimStep_zero cfg hclip hpred stride t x
      rw [hstep, smul_smul_sample]
      show smul _ x = smul ((Real.sqrt (prevAcp cfg (alphaCumulative cfg 0) stride t) /
          Real.sqrt (alphaCumulative cfg t)) * ddimFactor cfg stride ts) x
      rw [mul_comm]

theorem ddimFactor_chain (cfg : CoreConfig) (hval : validCore cfg) (stride : ℕ) :
    ∀ (ts : List ℕ) (t : ℕ),
      List.Chain' (fun a b => stride ≤ a ∧ a - stride = b) (t :: ts) →
      (∀ u ∈ t :: ts, u < cfg.numTrainTimesteps) →
      (t :: ts).getLast?.getD 0 < stride →
      ddimFactor cfg stride (t :: ts) =
        Real.sqrt (alphaCumulative cfg 0) / Real.sqrt (alphaCumulative cfg t) := by
  intro ts
  induction ts with
  | nil =>
      intro t hchain hmem hlast
      have hl : t < stride := by simpa using hlast
      have hnot : ¬ stride ≤ t := by omega
      show (Real.sqrt (prevAcp cfg (alphaCumulative cfg 0) stride t) /
          Real.sqrt (alphaCumulative cfg t)) * ddimFactor cfg stride [] = _
      unfold prevAcp
      rw [if_neg hnot]
      show _ * (1:ℝ) = _
      rw [mul_one]
  | cons t' ts ih =>
      intro t hchain hmem hlast
      obtain ⟨⟨hle, heq⟩, hchain'⟩ := List.chain'_cons.mp hchain
      have hrec := ih t' hchain'
        (fun u hu => hmem u (List.mem_cons_of_mem _ hu))
        (by simpa [List.getLast?_cons_cons] using hlast)
      have ht'T : t' < cfg.numTrainTimesteps := hmem t' (by simp)
      have hpos : 0 < alphaCumulative cfg t' := alphaCumulative_pos cfg hval t' ht'T
      have hsq : Real.sqrt (alphaCumulative cfg t') ≠ 0 :=
        ne_of_gt (Real.sqrt_pos.2 hpos)
      show (Real.sqrt (prevAcp cfg (alphaCumulative cfg 0) stride t) /
          Real.sqrt (alphaCumulative cfg t)) * ddimFactor cfg stride (t' :: ts) = _
      rw [hrec]
      have hf : prevAcp cfg (alphaCumulative cfg 0) stride t =
          alphaCumulative cfg t' := by
        unfold prevAcp
        rw [if_pos hle, heq]
      rw [hf, div_mul_div_comm,
        mul_comm (Real.sqrt (alphaCumulative cfg t')) (Real.sqrt (alphaCumulative cfg 0))]
      rw [mul_div_mul_right _ _ hsq]

/-- Claim C4.  With the §8 configuration (1000 trained steps, betas 0.00085
→ 0.012, scaled_linear), 20 requested steps, the DDIM variant and the
constant zero-prediction model, the run succeeds and the final sample is the
initial sample scaled by the deterministic closed-form factor
`√alpha_cumulative(0) / √alpha_cumulative(950)` anchored at
`alpha_cumulative(0)` (950 is the first visited timestep), with zero
injected variance: the result is independent of the supplied random
source. -/
theorem ddim_zero_prediction_closed_form (init : Sample) (rng : RandomSource) :
    ∃ res, run Variant.ddim ⟨notebookCore, []⟩ zeroModel 20 init rng =
        Except.ok res ∧
      res.final = smul (Real.sqrt (alphaCumulative notebookCore 0) /
        Real.sqrt (alphaCumulative notebookCore 950)) init ∧
      (∀ rng', run Variant.ddim ⟨notebookCore, []⟩ zeroModel 20 init rng' =
        run Variant.ddim ⟨notebookCore, []⟩ zeroModel 20 init rng) := by
  have hval : validCore notebookCore := by norm_num [validCore, notebookCore]
  have hts : sequenceList 20 1000 0 =
      [950, 900, 850, 800, 750, 700, 650, 600, 550, 500,
       450, 400, 350, 300, 250, 200, 150, 100, 50, 0] := by decide
  refine ⟨runSteps Variant.ddim notebookCore 50 zeroModel rng
    (sequenceList 20 1000 0) 0 init [], rfl, ?_, ?_⟩
  · rw [runSteps_ddim_zero notebookCore rfl rfl 50 rng
      (sequenceList 20 1000 0) 0 init []]
    congr 1
    rw [hts]
    exact ddimFactor_chain notebookCore hval 50 _ 950
      (by norm_num [List.chain'_cons, List.chain'_singleton]) (by decide) (by decide)
  · intro rng'
    show Except.ok _ = Except.ok _
    exact congrArg Except.ok
      (runSteps_rng_irrel Variant.ddim (by decide) notebookCore 50 zeroModel
        rng' rng (sequenceList 20 1000 0) 0 init [])

/-- Witness for C4 at a concrete initial sample and seeded source. -/
theorem ddim_zero_prediction_closed_form_witness :
    ∃ res, run Variant.ddim ⟨notebookCore, []⟩ zeroModel 20 [1]
        (mkRandomSource 8) = Except.ok res ∧
      res.final = smul (Real.sqrt (alphaCumulative notebookCore 0) /
        Real.sqrt (alphaCumulative notebookCore 950)) [1] ∧
      (∀ rng', run Variant.ddim ⟨notebookCore, []⟩ zeroModel 20 [1] rng' =
        run Variant.ddim ⟨notebookCore, []⟩ zeroModel 20 [1]
          (mkRandomSource 8)) :=
  ddim_zero_prediction_closed_form [1] (mkRandomSource 8)

/-! ## Stochastic variants: seeded reproducibility and seed sensitivity -/

/-- A small valid two-timestep configuration used for concrete stochastic
runs. -/
def demoCore : CoreConfig :=
  ⟨2, 1/10, 1/5, BetaScheduleKind.linear, false, PredictionType.epsilon, 1, 0⟩

/-- The final sample of a run outcome (empty on error). -/
def finalOf (r : Except SchedErr RunResult) : Sample :=
  match r with
  | Except.ok res => res.final
  | Except.error _ => []

theorem runSteps_rng_congr (v : Variant) (cfg : CoreConfig) (stride : ℕ)
    (model : ℕ → Sample → Sample) :
    ∀ (ts : List ℕ) (rng₁ rng₂ : RandomSource) (idx : ℕ) (x : Sample)
      (hist : List Sample),
      (∀ i, idx ≤ i → i < idx + ts.length → ∀ j, rng₁ i j = rng₂ i j) →
      runSteps v cfg stride model rng₁ ts idx x hist =
        runSteps v cfg stride model rng₂ ts idx x hist := by
  intro ts
  induction ts with
  | nil => intro rng₁ rng₂ idx x hist _; rfl
  | cons t ts ih =>
      intro rng₁ rng₂ idx x hist hagree
      simp only [runSteps]
      have hnoise : noiseSample rng₁ idx x.length =
          noiseSample rng₂ idx x.length := by
        unfold noiseSample
        apply List.map_congr_left
        intro j _
        exact hagree idx le_rfl (by simp) j
      rw [hnoise, ih rng₁ rng₂ (idx + 1) _ _
        (fun i h1 h2 j => hagree i (by omega) (by simp at h2 ⊢; omega) j)]

theorem demo_beta0 : betaAt demoCore 0 = 1/10 := by
  simp [betaAt, demoCore]

theorem demo_beta1 : betaAt demoCore 1 = 1/5 := by
  simp [betaAt, demoCore]
  norm_num

theorem demo_alpha0 : alphaAt demoCore 0 = 9/10 := by
  unfold alphaAt
  rw [demo_beta0]
  norm_num

theorem demo_alpha1 : alphaAt demoCore 1 = 4/5 := by
  unfold alphaAt
  rw [demo_beta1]
  norm_num

theorem demo_acp0 : alphaCumulative demoCore 0 = 9/10 := by
  unfold alphaCumulative
  rw [Finset.prod_range_one, demo_alpha0]

theorem demo_acp1 : alphaCumulative demoCore 1 = 18/25 := by
  rw [show (1:ℕ) = 0 + 1 from rfl, alphaCumulative_succ, demo_acp0, demo_alpha1]
  norm_num

theorem runSteps_two_final (v : Variant) (cfg : CoreConfig) (stride : ℕ)
    (model : ℕ → Sample → Sample) (rng : RandomSource) (t₁ t₂ : ℕ)
    (x : Sample) (hist : List Sample) :
    (runSteps v cfg stride model rng [t₁, t₂] 0 x hist).final =
      stepFn cfg stride 1 t₂ v
        (stepFn cfg stride 0 t₁ v x (model t₁ x)
          (noiseSample rng 0 x.length) hist)
        (model t₂ (stepFn cfg stride 0 t₁ v x (model t₁ x)
          (noiseSample rng 0 x.length) hist))
        (noiseSample rng 1 (stepFn cfg stride 0 t₁ v x (model t₁ x)
          (noiseSample rng 0 x.length) hist).length)
        (updateHistory cfg v (model t₁ x) hist) := rfl

theorem ddpmStep_single (cfg : CoreConfig) (stride t : ℕ) (a e ν : ℝ) :
    ddpmStep cfg stride t [a] [e] [ν] =
      [1 / Real.sqrt (alphaAt cfg t) *
        (a + -(betaAt cfg t / Real.sqrt (1 - alphaCumulative cfg t)) * e) +
       Real.sqrt (betaAt cfg t * (1 - prevAcp cfg 1 stride t) /
         (1 - alphaCumulative cfg t)) * ν] := by
  simp [ddpmStep, addS, smul]

theorem eaStep_single (cfg : CoreConfig) (stride t : ℕ) (a e ν : ℝ) :
    eaStep cfg stride t [a] [e] [ν] =
      [a + (Real.sqrt ((sigmaNext cfg stride t) ^ 2 -
          (sigmaNext cfg stride t) ^ 2 * ((sigmaAt cfg t) ^ 2 -
            (sigmaNext cfg stride t) ^ 2) / (sigmaAt cfg t) ^ 2) -
          sigmaAt cfg t) * e +
        Real.sqrt ((sigmaNext cfg stride t) ^ 2 * ((sigmaAt cfg t) ^ 2 -
          (sigmaNext cfg stride t) ^ 2) / (sigmaAt cfg t) ^ 2) * ν] := by
  simp [eaStep, addS, smul]

theorem ddpm_demo_final (rng : RandomSource) :
    (runSteps Variant.ddpm demoCore 1 zeroModel rng [1, 0] 0 [1] []).final =
      [1 / Real.sqrt ((9:ℝ)/10) *
        (1 / Real.sqrt ((4:ℝ)/5) + Real.sqrt ((1:ℝ)/14) * rng 0 0)] := by
  rw [runSteps_two_final]
  have hz1 : zeroModel 1 [(1:ℝ)] = [0] := rfl
  have hn0 : noiseSample rng 0 ([(1:ℝ)].length) = [rng 0 0] := rfl
  rw [hz1, hn0]
  simp only [stepFn]
  rw [ddpmStep_single]
  have hprev1 : prevAcp demoCore 1 1 1 = alphaCumulative demoCore 0 := by
    unfold prevAcp
    rw [if_pos le_rfl]
  rw [hprev1, demo_alpha1, demo_beta1, demo_acp0, demo_acp1]
  have hx1 : (1:ℝ) + -(1/5 / Real.sqrt (1 - 18/25)) * 0 = 1 := by norm_num
  rw [hx1]
  have hS : Real.sqrt ((1:ℝ)/5 * (1 - 9/10) / (1 - 18/25)) =
      Real.sqrt ((1:ℝ)/14) := by norm_num
  rw [hS]
  set b : ℝ := 1 / Real.sqrt ((4:ℝ)/5) * 1 + Real.sqrt ((1:ℝ)/14) * rng 0 0
    with hb
  have hz2 : zeroModel 0 [b] = [0] := rfl
  have hn1 : noiseSample rng 1 ([b].length) = [rng 1 0] := rfl
  rw [hz2, hn1, ddpmStep_single]
  have hprev0 : prevAcp demoCore 1 1 0 = 1 := by
    unfold prevAcp
    rw [if_neg (by omega)]
  rw [hprev0, demo_alpha0, demo_beta0, demo_acp0]
  have hv : Real.sqrt ((1:ℝ)/10 * (1 - 1) / (1 - 9/10)) = 0 := by
    norm_num
  rw [hv]
  have : (1:ℝ)/10 / Real.sqrt (1 - 9/10) * 0 = 0 := by ring
  rw [hb]
  norm_num

theorem ea_demo_final (rng : RandomSource) :
    (runSteps Variant.eulerAncestral demoCore 1 zeroModel rng [1, 0] 0 [1] []).final =
      [1 + Real.sqrt ((5:ℝ)/63) * rng 0 0] := by
  have hσ0sq : (sigmaAt demoCore 0) ^ 2 = 1/9 := by
    unfold sigmaAt
    rw [demo_acp0, Real.sq_sqrt (by norm_num)]
    norm_num
  have hσ1sq : (sigmaAt demoCore 1) ^ 2 = 7/18 := by
    unfold sigmaAt
    rw [demo_acp1, Real.sq_sqrt (by norm_num)]
    norm_num
  have hnext1 : sigmaNext demoCore 1 1 = sigmaAt demoCore 0 := by
    unfold sigmaNext
    rw [if_pos le_rfl]
  have hnext0 : sigmaNext demoCore 1 0 = 0 := by
    unfold sigmaNext
    rw [if_neg (by omega)]
  rw [runSteps_two_final]
  have hz1 : zeroModel 1 [(1:ℝ)] = [0] := rfl
  have hn0 : noiseSample rng 0 ([(1:ℝ)].length) = [rng 0 0] := rfl
  rw [hz1, hn0]
  simp only [stepFn]
  rw [eaStep_single, hnext1, hσ0sq, hσ1sq]
  have hup : Real.sqrt ((1:ℝ)/9 * (7/18 - 1/9) / (7/18)) =
      Real.sqrt ((5:ℝ)/63) := by norm_num
  have hx1 : (1:ℝ) + (Real.sqrt (1/9 - 1/9 * (7/18 - 1/9) / (7/18)) -
      sigmaAt demoCore 1) * 0 = 1 := by ring
  rw [hup, hx1]
  set b : ℝ := 1 + Real.sqrt ((5:ℝ)/63) * rng 0 0 with hb
  have hz2 : zeroModel 0 [b] = [0] := rfl
  have hn1 : noiseSample rng 1 ([b].length) = [rng 1 0] := rfl
  rw [hz2, hn1, eaStep_single, hnext0, hσ0sq]
  norm_num

theorem mkRandomSource_seeds_differ :
    mkRandomSource 0 0 0 ≠ mkRandomSource 1 0 0 := by
  unfold mkRandomSource lcgVal
  norm_num

/-- Claim C7.  For the stochastic variants (DDPM, Euler-Ancestral): two runs
whose random sources emit the same values on the consumed calls — in
particular, sources built from the same seed — produce the same result with
the same config and model outputs; and there exist two different seeds that,
with fixed (zero) model outputs, produce different results for both DDPM and
Euler-Ancestral. -/
theorem stochastic_seed_reproducibility :
    (∀ v, stochasticVariant v = true → ∀ (cfg : SchedulerConfig)
      (model : ℕ → Sample → Sample) (k : ℕ) (init : Sample)
      (rng₁ rng₂ : RandomSource),
      (∀ i, i < k → ∀ j, rng₁ i j = rng₂ i j) →
      run v cfg model k init rng₁ = run v cfg model k init rng₂) ∧
    (∃ s₁ s₂ : ℕ, s₁ ≠ s₂ ∧
      run Variant.ddpm ⟨demoCore, []⟩ zeroModel 2 [1] (mkRandomSource s₁) ≠
        run Variant.ddpm ⟨demoCore, []⟩ zeroModel 2 [1] (mkRandomSource s₂) ∧
      run Variant.eulerAncestral ⟨demoCore, []⟩ zeroModel 2 [1]
          (mkRandomSource s₁) ≠
        run Variant.eulerAncestral ⟨demoCore, []⟩ zeroModel 2 [1]
          (mkRandomSource s₂)) := by
  constructor
  · intro v _ cfg model k init rng₁ rng₂ hagree
    by_cases h : cfg.core.numTrainTimesteps < k
    · unfold run sequence
      rw [if_pos h]
    · unfold run sequence
      rw [if_neg h]
      refine congrArg Except.ok ?_
      apply runSteps_rng_congr
      intro i h1 h2 j
      apply hagree
      rw [sequenceList_length] at h2
      omega
  · refine ⟨0, 1, by norm_num, ?_, ?_⟩
    · intro hcontra
      have hfin := congrArg finalOf hcontra
      have hrun : ∀ rng, finalOf (run Variant.ddpm ⟨demoCore, []⟩ zeroModel
          2 [1] rng) =
          (runSteps Variant.ddpm demoCore 1 zeroModel rng [1, 0] 0 [1] []).final :=
        fun rng => rfl
      rw [hrun, hrun, ddpm_demo_final, ddpm_demo_final] at hfin
      have hhead : 1 / Real.sqrt ((9:ℝ)/10) *
          (1 / Real.sqrt ((4:ℝ)/5) + Real.sqrt ((1:ℝ)/14) * mkRandomSource 0 0 0) =
          1 / Real.sqrt ((9:ℝ)/10) *
          (1 / Real.sqrt ((4:ℝ)/5) + Real.sqrt ((1:ℝ)/14) * mkRandomSource 1 0 0) := by
        simpa using hfin
      have hc : (1:ℝ) / Real.sqrt ((9:ℝ)/10) ≠ 0 := by positivity
      have hS : Real.sqrt ((1:ℝ)/14) ≠ 0 :=
        ne_of_gt (Real.sqrt_pos.2 (by norm_num))
      have := mul_left_cancel₀ hS
        (add_left_cancel (mul_left_cancel₀ hc hhead))
      exact mkRandomSource_seeds_differ this
    · intro hcontra
      have hfin := congrArg finalOf hcontra
      have hrun : ∀ rng, finalOf (run Variant.eulerAncestral ⟨demoCore, []⟩
          zeroModel 2 [1] rng) =
          (runSteps Variant.eulerAncestral demoCore 1 zeroModel rng
            [1, 0] 0 [1] []).final :=
        fun rng => rfl
      rw [hrun, hrun, ea_demo_final, ea_demo_final] at hfin
      have hhead : (1:ℝ) + Real.sqrt ((5:ℝ)/63) * mkRandomSource 0 0 0 =
          1 + Real.sqrt ((5:ℝ)/63) * mkRandomSource 1 0 0 := by
        simpa using hfin
      have hS : Real.sqrt ((5:ℝ)/63) ≠ 0 :=
        ne_of_gt (Real.sqrt_pos.2 (by norm_num))
      have := mul_left_cancel₀ hS (add_left_cancel hhead)
      exact mkRandomSource_seeds_differ this

/-- Witness for C7: a DDPM run reproduced with the same seed. -/
theorem stochastic_seed_reproducibility_witness :
    run Variant.ddpm ⟨demoCore, []⟩ zeroModel 2 [1] (mkRandomSource 5) =
      run Variant.ddpm ⟨demoCore, []⟩ zeroModel 2 [1] (mkRandomSource 5) :=
  stochastic_seed_reproducibility.1 Variant.ddpm (by decide) ⟨demoCore, []⟩
    zeroModel 2 [1] (mkRandomSource 5) (mkRandomSource 5)
    (fun _ _ _ => rfl)

end SchedulerEngine
